import Mathlib

/-!
Verification of the data-loading and aggregation logic of
`src/streamlit-apps/deskdrop_eda.py`.

The script loads a delimited file into a dataframe (`load_data`, built on
`pd.read_csv` plus an in-place `pd.to_datetime` conversion of a designated
epoch-seconds column and a dtype mapping that coerces named columns to a
categorical encoding), then runs read-only aggregation queries over it:
a duplicate-title filter (`Series.duplicated(keep=False)`) and an
author-frequency ranking (`groupby("authorPersonId").size()` sorted
descending, with a percent-of-total column).

The embedding below models cell values, dataframes and those operations as
executable Lean functions, and proves the specified properties about them.
Column type inference follows the reader's tiers: all-integer columns are
int64, columns of numeric literals and missing-value tokens are float64, the
rest text. Float cells and the percent column are modelled with exact
rationals.
-/

namespace Deskdrop

/-- A cell value of a loaded dataframe: an integer (int64 cell), a float
(float64 cell, modelled as an exact rational), a string (free-form text or a
categorical label), a missing value (`NaN`/`NaT`), a whole-second date-time
(stored as seconds since the Unix epoch), or a fractional-second date-time
(as `to_datetime(unit="s")` produces from float input). -/
inductive Value where
  | vint (n : Int)
  | vfloat (q : ℚ)
  | vstr (s : String)
  | vnull
  | vdatetime (n : Int)
  | vdatetimeF (q : ℚ)
  deriving DecidableEq

/-- Whether a cell is the missing value. -/
def Value.isNull : Value → Bool
  | .vnull => true
  | _ => false

/-- Whether `pd.to_datetime(..., unit="s")` accepts a cell: integers and
floats convert, missing values pass through as `NaT`, anything else (text)
raises. -/
def Value.epochOk : Value → Bool
  | .vint _ => true
  | .vfloat _ => true
  | .vnull => true
  | _ => false

/-- Cellwise action of `pd.to_datetime(..., unit="s")` on an accepted cell:
an integer becomes the date-time that many seconds after the epoch, a float
the date-time that many (possibly fractional) seconds after the epoch, a
missing value stays missing. -/
def Value.toDatetime : Value → Value
  | .vint n => .vdatetime n
  | .vfloat q => .vdatetimeF q
  | v => v

/-- Converting a date-time cell back to whole seconds since the Unix epoch
(a fractional-second date-time has no integer epoch value). -/
def Value.toEpoch : Value → Option Int
  | .vdatetime n => some n
  | _ => none

/-- Column dtype of a loaded dataframe: inferred from the data, coerced to a
categorical encoding with the given label set, or a date-time column. -/
inductive Dtype where
  | dinferred
  | dcat (labels : List String)
  | ddatetime
  deriving DecidableEq

/-- Whether a dtype is a categorical encoding. -/
def Dtype.isCat : Dtype → Bool
  | .dcat _ => true
  | _ => false

/-- A delimited input file, already split into a header row and data rows of
raw text cells. `none` at the `load_data` call site stands for a path that
names no existing file. -/
structure CsvFile where
  header : List String
  rows : List (List String)
  deriving DecidableEq

/-- A data row is well-formed when it has one cell per header column; pandas
raises a parser error otherwise. -/
def CsvFile.wellFormed (f : CsvFile) : Prop :=
  ∀ r ∈ f.rows, r.length = f.header.length

/-- The data rows actually read: `pd.read_csv(..., nrows=n)` stops after `n`
rows, `nrows=None` reads the whole file. -/
def CsvFile.takenRows (f : CsvFile) (nrows : Option Nat) : List (List String) :=
  match nrows with
  | some n => f.rows.take n
  | none => f.rows

/-- An in-memory table: column names, per-column dtypes, and row-major cells. -/
structure DataFrame where
  header : List String
  dtypes : List Dtype
  rows : List (List Value)
  deriving DecidableEq

/-- Index of the first column with the given name (header length if absent);
column selection `df[name]` resolves names this way. -/
def colIndex : List String → String → Nat
  | [], _ => 0
  | h :: t, name => if h = name then 0 else colIndex t name + 1

/-- Column selection `df[name]`: the cell of each row at the column's index. -/
def DataFrame.col (df : DataFrame) (name : String) : List Value :=
  df.rows.map (fun r => r.getD (colIndex df.header name) .vnull)

/-- Leading and trailing blanks of a raw cell, which the delimited-text
reader's numeric converters skip. -/
def trimChars (cs : List Char) : List Char :=
  ((cs.dropWhile (fun c => c == ' ' || c == '\t')).reverse.dropWhile
    (fun c => c == ' ' || c == '\t')).reverse

/-- Value of a run of decimal digits. -/
def digitsVal (cs : List Char) : Nat :=
  cs.foldl (fun acc c => acc * 10 + (c.toNat - 48)) 0

/-- Integer-literal parser over characters: an optional sign followed by one
or more decimal digits. -/
def parseIntChars (cs : List Char) : Option Int :=
  match cs with
  | [] => none
  | c :: rest =>
    if c = '-' then
      if rest ≠ [] ∧ rest.all Char.isDigit then some (-(digitsVal rest : Int)) else none
    else if c = '+' then
      if rest ≠ [] ∧ rest.all Char.isDigit then some ((digitsVal rest : Int)) else none
    else if (c :: rest).all Char.isDigit then some ((digitsVal (c :: rest) : Int))
    else none

/-- Integer-literal parser for raw text cells, blanks skipped, as the
delimited-text reader recognises int64 cells. -/
def parseInt? (s : String) : Option Int := parseIntChars (trimChars s.data)

/-- Whether a raw text cell is an integer literal. -/
def isIntLit (s : String) : Bool := (parseInt? s).isSome

/-- The strings `pd.read_csv` treats as missing values by default. -/
def NA_TOKENS : List String :=
  ["", "#N/A", "#N/A N/A", "#NA", "-1.#IND", "-1.#QNAN", "-NaN", "-nan",
   "1.#IND", "1.#QNAN", "<NA>", "N/A", "NA", "NULL", "NaN", "None", "n/a",
   "nan", "null"]

/-- Whether a raw cell is one of the reader's default missing-value tokens. -/
def isNAToken (s : String) : Bool := NA_TOKENS.contains s

/-- Exponent part of a float literal: an optional sign followed by one or
more decimal digits. -/
def parseExpChars (es : List Char) : Option Int :=
  match es with
  | [] => none
  | c :: rest =>
    if c = '-' then
      if rest ≠ [] ∧ rest.all Char.isDigit then some (-(digitsVal rest : Int)) else none
    else if c = '+' then
      if rest ≠ [] ∧ rest.all Char.isDigit then some ((digitsVal rest : Int)) else none
    else if (c :: rest).all Char.isDigit then some ((digitsVal (c :: rest) : Int))
    else none

/-- Attaches an optional `e`/`E` exponent to a parsed mantissa. -/
def parseMantExp (m : ℚ) (r : List Char) : Option ℚ :=
  match r with
  | [] => some m
  | c :: rest =>
    if c = 'e' ∨ c = 'E' then (parseExpChars rest).map (fun e => m * (10 : ℚ) ^ e)
    else none

/-- Unsigned float literal: digits with an optional fractional part (at least
one digit overall) and an optional exponent. -/
def parseNumCore (ds : List Char) : Option ℚ :=
  match ds.dropWhile Char.isDigit with
  | [] =>
    if ds.takeWhile Char.isDigit = [] then none
    else some ((digitsVal (ds.takeWhile Char.isDigit) : ℚ))
  | c :: r2 =>
    if c = '.' then
      if ds.takeWhile Char.isDigit = [] ∧ r2.takeWhile Char.isDigit = [] then none
      else
        parseMantExp ((digitsVal (ds.takeWhile Char.isDigit) : ℚ)
            + (digitsVal (r2.takeWhile Char.isDigit) : ℚ)
              / (10 : ℚ) ^ (r2.takeWhile Char.isDigit).length)
          (r2.dropWhile Char.isDigit)
    else if ds.takeWhile Char.isDigit = [] then none
    else parseMantExp ((digitsVal (ds.takeWhile Char.isDigit) : ℚ)) (c :: r2)

/-- Signed float literal over characters. -/
def parseNumChars (cs : List Char) : Option ℚ :=
  match cs with
  | [] => none
  | c :: rest =>
    if c = '-' then (parseNumCore rest).map (fun q => -q)
    else if c = '+' then parseNumCore rest
    else parseNumCore (c :: rest)

/-- Numeric-literal parser for raw text cells, blanks skipped: everything the
delimited-text reader converts to a float64 value (integers, decimals,
scientific notation). -/
def parseNum? (s : String) : Option ℚ := parseNumChars (trimChars s.data)

/-- Cellwise action of reading a raw cell under `dtype="category"`: empty
fields become missing values, everything else is a categorical label. -/
def parseCatCell (s : String) : Value :=
  if s = "" then .vnull else .vstr s

/-- Type inference of `pd.read_csv` on one column: a column whose cells are
all integer literals is read as int64; otherwise a column whose cells are all
numeric literals or missing-value tokens is read as float64 with the tokens
as `NaN`; any other column is read as text, with missing-value tokens still
becoming `NaN`. -/
def inferCol (raw : List String) : List Value :=
  if raw.all (fun t => isIntLit t) then
    raw.map (fun s =>
      match parseInt? s with
      | some n => .vint n
      | none => .vnull)
  else if raw.all (fun t => isNAToken t || (parseNum? t).isSome) then
    raw.map (fun s =>
      if isNAToken s then .vnull
      else
        match parseNum? s with
        | some q => .vfloat q
        | none => .vnull)
  else
    raw.map (fun s => if isNAToken s then .vnull else .vstr s)

/-- Parsing one raw cell at column position `j`: a column named in the
categorical dtype mapping is read as categorical labels, otherwise the cell is
read the way `inferCol` reads its column (the per-column int64 and float64
inference is re-stated here over the taken rows so that the cell parse is
positional). -/
def parsePos (header : List String) (catCols : List String)
    (taken : List (List String)) (j : Nat) (s : String) : Value :=
  if header.getD j "" ∈ catCols then parseCatCell s
  else if (taken.map (fun r => r.getD j "")).all (fun t => isIntLit t) then
    match parseInt? s with
    | some n => .vint n
    | none => .vnull
  else if (taken.map (fun r => r.getD j "")).all
      (fun t => isNAToken t || (parseNum? t).isSome) then
    if isNAToken s then .vnull
    else
      match parseNum? s with
      | some q => .vfloat q
      | none => .vnull
  else if isNAToken s then .vnull
  else .vstr s

/-- Parsing one raw data row into one table row, one cell per header column. -/
def parseRow (header : List String) (catCols : List String)
    (taken : List (List String)) (r : List String) : List Value :=
  (List.range header.length).map (fun j => parsePos header catCols taken j (r.getD j ""))

/-- Label set of a column read under `dtype="category"`: the distinct
non-empty raw values present among the taken rows. -/
def catLabels (taken : List (List String)) (j : Nat) : List String :=
  ((taken.map (fun r => r.getD j "")).filter (fun s => !(s == ""))).dedup

/-- The table `pd.read_csv` builds from a well-formed file: the file's header,
a dtype per column (categorical for columns named in the dtype mapping,
inferred otherwise), and the taken rows parsed cell by cell. -/
def read_table (f : CsvFile) (nrows : Option Nat) (catCols : List String) : DataFrame :=
  let taken := f.takenRows nrows
  { header := f.header
    dtypes := (List.range f.header.length).map (fun j =>
      if f.header.getD j "" ∈ catCols then .dcat (catLabels taken j) else .dinferred)
    rows := taken.map (parseRow f.header catCols taken) }

/-- Failure conditions of `load_data`: the path names no existing file, the
file is not parseable as delimited text, the named date column is absent, or
its values cannot be read as epoch seconds. -/
inductive LoadError where
  | fileNotFound
  | parseError
  | keyError
  | dateColNotNumeric
  deriving DecidableEq

instance {ε α : Type} [DecidableEq ε] [DecidableEq α] : DecidableEq (Except ε α) := fun a b =>
  match a, b with
  | .error e, .error f =>
    if h : e = f then .isTrue (by rw [h]) else .isFalse (fun hh => h (by cases hh; rfl))
  | .ok x, .ok y =>
    if h : x = y then .isTrue (by rw [h]) else .isFalse (fun hh => h (by cases hh; rfl))
  | .error _, .ok _ => .isFalse (fun hh => by cases hh)
  | .ok _, .error _ => .isFalse (fun hh => by cases hh)

/-- Model of the `pd.read_csv(path, nrows=nrows, dtype=dtypes)` call in
`load_data`. `file` is `none` when the path names no existing file; `catCols`
lists the columns the dtype mapping sends to `"category"` (the only target
type the script uses, cf. `ARTICLES_DTYPES`). -/
def read_csv (file : Option CsvFile) (nrows : Option Nat) (catCols : List String) :
    Except LoadError DataFrame :=
  match file with
  | none => .error .fileNotFound
  | some f =>
    if f.rows.all (fun r => r.length == f.header.length) then
      .ok (read_table f nrows catCols)
    else .error .parseError

/-- Model of `pd.to_datetime(column, unit="s")`: succeeds when every cell is
an integer or missing, converting cellwise; raises otherwise. -/
def to_datetime (vs : List Value) : Except LoadError (List Value) :=
  if vs.all Value.epochOk then .ok (vs.map Value.toDatetime)
  else .error .dateColNotNumeric

/-- In-place column assignment `data[name] = vs` as performed by the date
conversion: each row gets its cell at the column's index replaced, and the
column's dtype becomes date-time. -/
def DataFrame.set_datetime_col (df : DataFrame) (name : String) (vs : List Value) :
    DataFrame :=
  { header := df.header
    dtypes := df.dtypes.set (colIndex df.header name) .ddatetime
    rows := (df.rows.zip vs).map (fun p => p.1.set (colIndex df.header name) p.2) }

/-- Model of `load_data` in `src/streamlit-apps/deskdrop_eda.py`: read the
delimited file, then, when the `date_col` argument is truthy (the guard is
`if date_col:`, so `None` and the empty string both skip it), convert that
column from epoch seconds to date-times in place. Looking the column up in a
table that lacks it raises a key error, as `data[date_col]` does. -/
def load_data (file : Option CsvFile) (nrows : Option Nat)
    (date_col : Option String) (catCols : List String) : Except LoadError DataFrame :=
  match read_csv file nrows catCols with
  | .error e => .error e
  | .ok data =>
    match date_col with
    | none => .ok data
    | some dc =>
      if dc = "" then .ok data
      else if dc ∈ data.header then
        match to_datetime (data.col dc) with
        | .error e => .error e
        | .ok vs => .ok (data.set_datetime_col dc vs)
      else .error .keyError

/-- Raw text cells of one named column among the taken rows of a file. -/
def rawCol (f : CsvFile) (nrows : Option Nat) (name : String) : List String :=
  (f.takenRows nrows).map (fun r => r.getD (colIndex f.header name) "")

/-- Model of `Series.duplicated(keep=False)`: position `i` is marked exactly
when the value at `i` also occurs at some other position of the series. -/
def duplicatedKeepFalse (xs : List Value) : List Bool :=
  (List.range xs.length).map (fun i =>
    (List.range xs.length).any (fun j =>
      decide (j ≠ i) && decide (xs.getD j .vnull = xs.getD i .vnull)))

/-- Columns the duplicates view projects to, as listed in the script. -/
def DUP_VIEW_COLS : List String :=
  ["timestamp", "eventType", "contentId", "contentType", "authorPersonId", "url", "title"]

/-- Model of the duplicates view
`articles_df[cols][articles_df["title"].duplicated(keep=False)]`: project each
row to the listed columns, then keep the rows the duplicate mask marks. -/
def duplicates_view (df : DataFrame) : List (List Value) :=
  (((df.rows.map (fun r => DUP_VIEW_COLS.map (fun c => r.getD (colIndex df.header c) .vnull))).zip
      (duplicatedKeepFalse (df.col "title"))).filter (fun p => p.2)).map (fun p => p.1)

/-- Stated from the spec, for comparison with `duplicates_view`: exactly the
rows whose `title` value occurs two or more times in the table, projected to
the same columns. -/
def dup_title_rows_spec (df : DataFrame) : List (List Value) :=
  ((df.rows.zip (df.col "title")).filter
      (fun p => decide (2 ≤ (df.col "title").count p.2))).map
    (fun p => DUP_VIEW_COLS.map (fun c => p.1.getD (colIndex df.header c) .vnull))

/-- Descending-count order used by `sort_values(ascending=False)` on the
author group sizes. -/
def byCountDesc (a b : Value × Nat) : Prop := b.2 ≤ a.2

instance : DecidableRel byCountDesc := fun a b => Nat.decLe b.2 a.2

instance : IsTotal (Value × Nat) byCountDesc := ⟨fun a b => Nat.le_total b.2 a.2⟩

instance : IsTrans (Value × Nat) byCountDesc :=
  ⟨fun _ _ _ hab hbc => Nat.le_trans hbc hab⟩

/-- Model of `articles_df.groupby(["authorPersonId"]).size()`: one entry per
distinct non-missing author id, with the number of rows carrying that id.
Rows with a missing id are dropped by groupby's default `dropna=True`. -/
def author_groups (df : DataFrame) : List (Value × Nat) :=
  let keys := (df.col "authorPersonId").filter (fun v => !v.isNull)
  keys.dedup.map (fun k => (k, keys.count k))

/-- Model of the Most Common Authors block: the group sizes sorted by
`sort_values(ascending=False)`, with the added column
`percent = num_articles / num_articles.sum() * 100`. Each output entry is
(author id, num_articles, percent). -/
def author_freq (df : DataFrame) : List (Value × Nat × ℚ) :=
  let groups := author_groups df
  let total : ℚ := ((groups.map (fun g => g.2)).sum : ℕ)
  (groups.insertionSort byCountDesc).map (fun g => (g.1, g.2, (g.2 : ℚ) / total * 100))

/-! Concrete inputs used to witness the theorems below on closed instances. -/

/-- A three-row file with a single integer column. -/
def Wfile2 : CsvFile := ⟨["x"], [["1"], ["2"], ["3"]]⟩

/-- The table `load_data` produces from `Wfile2` with a row limit of 2. -/
def Wdf2 : DataFrame := ⟨["x"], [.dinferred], [[.vint 1], [.vint 2]]⟩

/-- A two-row file with a single epoch-seconds column. -/
def Wfile3 : CsvFile := ⟨["timestamp"], [["100"], ["200"]]⟩

/-- The table `load_data` produces from `Wfile3` with `date_col="timestamp"`. -/
def Wdf3 : DataFrame := ⟨["timestamp"], [.ddatetime], [[.vdatetime 100], [.vdatetime 200]]⟩

/-- A six-row file whose author ids are split 3/2/1 among three authors. -/
def Wfile4 : CsvFile := ⟨["authorPersonId"], [["1"], ["1"], ["1"], ["2"], ["2"], ["3"]]⟩

/-- A one-row file with a categorical column and a date column. -/
def Wfile6 : CsvFile := ⟨["lang", "t"], [["en", "7"]]⟩

/-- The table `load_data` produces from `Wfile6` with `date_col="t"` and
`"lang"` mapped to the categorical dtype. -/
def Wdf6 : DataFrame := ⟨["lang", "t"], [.dcat ["en"], .ddatetime], [[.vstr "en", .vdatetime 7]]⟩

/-- A one-row file whose date column holds non-numeric text. -/
def Wfile7 : CsvFile := ⟨["t"], [["abc"]]⟩

/-- A two-row file with a date column, a categorical column and a text column. -/
def Wfile8 : CsvFile := ⟨["t", "lang", "title"], [["5", "en", "Hi"], ["6", "pt", "Oi"]]⟩

/-- The table `load_data` produces from `Wfile8` with `date_col="t"` and
`"lang"` mapped to the categorical dtype. -/
def Wdf8 : DataFrame :=
  ⟨["t", "lang", "title"], [.ddatetime, .dcat ["en", "pt"], .dinferred],
   [[.vdatetime 5, .vstr "en", .vstr "Hi"], [.vdatetime 6, .vstr "pt", .vstr "Oi"]]⟩

/-- A one-row file with a single author id. -/
def Wfile10 : CsvFile := ⟨["authorPersonId"], [["5"]]⟩

/-! Basic list helpers used throughout the proofs. -/

theorem getD_of_lt {α : Type} (l : List α) (i : Nat) (d : α) (h : i < l.length) :
    l.getD i d = l[i] := by
  rw [List.getD_eq_getElem?_getD, List.getElem?_eq_getElem h, Option.getD_some]

theorem getD_of_ge {α : Type} (l : List α) (i : Nat) (d : α) (h : l.length ≤ i) :
    l.getD i d = d := by
  rw [List.getD_eq_getElem?_getD, List.getElem?_eq_none h, Option.getD_none]

theorem getD_map {α β : Type} (f : α → β) (l : List α) (i : Nat) (d : α) (d' : β)
    (h : i < l.length) : (l.map f).getD i d' = f (l.getD i d) := by
  rw [getD_of_lt _ _ _ (by simpa using h), getD_of_lt _ _ _ h, List.getElem_map]

theorem getD_range_map {α : Type} (n : Nat) (g : Nat → α) (i : Nat) (d : α) :
    ((List.range n).map g).getD i d = if i < n then g i else d := by
  rcases Nat.lt_or_ge i n with h | h
  · rw [if_pos h, getD_map _ _ _ 0 _ (by simpa using h), getD_of_lt _ _ _ (by simpa using h),
      List.getElem_range]
  · rw [if_neg (Nat.not_lt.mpr h), getD_of_ge _ _ _ (by simpa using h)]

theorem getD_set_ne {α : Type} (l : List α) {i j : Nat} (v d : α) (h : i ≠ j) :
    (l.set i v).getD j d = l.getD j d := by
  rcases Nat.lt_or_ge j l.length with hj | hj
  · rw [getD_of_lt _ _ _ (by simpa using hj), getD_of_lt _ _ _ hj, List.getElem_set_ne h]
  · rw [getD_of_ge _ _ _ (by simpa using hj), getD_of_ge _ _ _ hj]

theorem getD_mem {α : Type} (l : List α) (i : Nat) (d : α) (h : i < l.length) :
    l.getD i d ∈ l := by
  rw [getD_of_lt _ _ _ h]
  exact List.getElem_mem h

/-! Lemmas about `colIndex`. -/

theorem colIndex_lt {header : List String} {name : String} (h : name ∈ header) :
    colIndex header name < header.length := by
  induction header with
  | nil => cases h
  | cons x t ih =>
    by_cases hx : x = name
    · simp [colIndex, hx]
    · rcases List.mem_cons.mp h with h1 | h1
      · exact absurd h1.symm hx
      · simpa [colIndex, hx] using ih h1

theorem getD_colIndex {header : List String} {name : String} (h : name ∈ header) :
    header.getD (colIndex header name) "" = name := by
  induction header with
  | nil => cases h
  | cons x t ih =>
    by_cases hx : x = name
    · simp [colIndex, hx]
    · rcases List.mem_cons.mp h with h1 | h1
      · exact absurd h1.symm hx
      · simpa [colIndex, hx] using ih h1

theorem colIndex_inj {header : List String} {a b : String} (ha : a ∈ header)
    (hb : b ∈ header) (hne : a ≠ b) : colIndex header a ≠ colIndex header b := by
  intro h
  apply hne
  rw [← getD_colIndex ha, ← getD_colIndex hb, h]

/-! Shape lemmas for the loader pipeline. -/

theorem read_csv_ok_iff (f : CsvFile) (nrows : Option Nat) (cats : List String)
    (data : DataFrame) :
    read_csv (some f) nrows cats = .ok data ↔ f.wellFormed ∧ data = read_table f nrows cats := by
  show (if f.rows.all (fun r => r.length == f.header.length) then
        Except.ok (read_table f nrows cats)
      else (Except.error LoadError.parseError : Except LoadError DataFrame)) = Except.ok data ↔
    f.wellFormed ∧ data = read_table f nrows cats
  by_cases hc : f.rows.all (fun r => r.length == f.header.length) = true
  · rw [if_pos hc]
    rw [List.all_eq_true] at hc
    have hwf : f.wellFormed := fun r hr => by simpa using hc r hr
    constructor
    · intro h
      exact ⟨hwf, (Except.ok.inj h).symm⟩
    · rintro ⟨_, rfl⟩
      rfl
  · rw [if_neg hc]
    constructor
    · intro h
      cases h
    · rintro ⟨hwf, _⟩
      exact absurd (List.all_eq_true.mpr (fun r hr => by simpa using hwf r hr)) hc

theorem col_length (df : DataFrame) (name : String) :
    (df.col name).length = df.rows.length := by
  simp [DataFrame.col]

theorem parseRow_length (header cats : List String) (taken : List (List String))
    (r : List String) : (parseRow header cats taken r).length = header.length := by
  simp [parseRow]

theorem read_table_rows_length (f : CsvFile) (nrows : Option Nat) (cats : List String) :
    (read_table f nrows cats).rows.length = (f.takenRows nrows).length := by
  simp [read_table]

theorem read_table_rect (f : CsvFile) (nrows : Option Nat) (cats : List String) :
    ∀ r ∈ (read_table f nrows cats).rows, r.length = f.header.length := by
  intro r hr
  obtain ⟨raw, _, rfl⟩ := List.mem_map.mp hr
  exact parseRow_length _ _ _ _

theorem takenRows_length (f : CsvFile) (nrows : Option Nat) :
    (f.takenRows nrows).length
      = nrows.elim f.rows.length (fun n => min n f.rows.length) := by
  cases nrows <;> simp [CsvFile.takenRows]

theorem col_read_table (f : CsvFile) (nrows : Option Nat) (cats : List String)
    (name : String) (h : name ∈ f.header) :
    (read_table f nrows cats).col name
      = (rawCol f nrows name).map
          (parsePos f.header cats (f.takenRows nrows) (colIndex f.header name)) := by
  unfold DataFrame.col read_table rawCol
  simp only [List.map_map]
  apply List.map_congr_left
  intro r _
  simp only [Function.comp]
  rw [parseRow, getD_range_map, if_pos (colIndex_lt h)]

theorem to_datetime_ok_iff (vs ws : List Value) :
    to_datetime vs = .ok ws ↔ vs.all Value.epochOk = true ∧ ws = vs.map Value.toDatetime := by
  unfold to_datetime
  rcases hc : vs.all Value.epochOk with _ | _ <;> simp [eq_comm]

theorem zip_set_getD_self (idx : Nat) :
    ∀ (rows : List (List Value)) (vs : List Value),
      (∀ r ∈ rows, idx < r.length) → vs.length = rows.length →
      ((rows.zip vs).map (fun p => p.1.set idx p.2)).map (fun r => r.getD idx .vnull) = vs := by
  intro rows
  induction rows with
  | nil =>
    intro vs _ hlen
    have hv : vs = [] := List.length_eq_zero.mp (by simpa using hlen)
    subst hv
    simp
  | cons r rows ih =>
    intro vs hrect hlen
    cases vs with
    | nil => simp at hlen
    | cons v vs =>
      simp only [List.zip_cons_cons, List.map_cons, List.cons.injEq]
      constructor
      · have hi : idx < r.length := hrect r (List.mem_cons_self r rows)
        rw [getD_of_lt _ _ _ (by simpa using hi), List.getElem_set_self]
      · exact ih vs (fun x hx => hrect x (List.mem_cons_of_mem r hx)) (by simpa using hlen)

theorem zip_set_getD_ne {idx j : Nat} (hne : idx ≠ j) :
    ∀ (rows : List (List Value)) (vs : List Value), vs.length = rows.length →
      ((rows.zip vs).map (fun p => p.1.set idx p.2)).map (fun r => r.getD j .vnull)
        = rows.map (fun r => r.getD j .vnull) := by
  intro rows
  induction rows with
  | nil => intro vs _; simp
  | cons r rows ih =>
    intro vs hlen
    cases vs with
    | nil => simp at hlen
    | cons v vs =>
      simp only [List.zip_cons_cons, List.map_cons, List.cons.injEq]
      exact ⟨getD_set_ne r v .vnull hne, ih vs (by simpa using hlen)⟩

theorem col_set_datetime_self (df : DataFrame) (name : String) (vs : List Value)
    (hrect : ∀ r ∈ df.rows, colIndex df.header name < r.length)
    (hlen : vs.length = df.rows.length) :
    (df.set_datetime_col name vs).col name = vs := by
  unfold DataFrame.set_datetime_col DataFrame.col
  exact zip_set_getD_self _ df.rows vs hrect hlen

theorem col_set_datetime_ne (df : DataFrame) (name c : String) (vs : List Value)
    (hne : colIndex df.header name ≠ colIndex df.header c)
    (hlen : vs.length = df.rows.length) :
    (df.set_datetime_col name vs).col c = df.col c := by
  unfold DataFrame.set_datetime_col DataFrame.col
  exact zip_set_getD_ne hne df.rows vs hlen

theorem load_data_ok_cases (f : CsvFile) (nrows : Option Nat) (dc : String)
    (cats : List String) (df : DataFrame) (hdc : dc ≠ "")
    (hok : load_data (some f) nrows (some dc) cats = .ok df) :
    f.wellFormed ∧ dc ∈ f.header ∧
      ∃ vs, to_datetime ((read_table f nrows cats).col dc) = .ok vs ∧
        df = (read_table f nrows cats).set_datetime_col dc vs := by
  unfold load_data at hok
  rcases hrc : read_csv (some f) nrows cats with e | data
  · rw [hrc] at hok; cases hok
  · obtain ⟨hwf, rfl⟩ := (read_csv_ok_iff f nrows cats data).mp hrc
    rw [hrc] at hok
    simp only [if_neg hdc] at hok
    by_cases hmem : dc ∈ (read_table f nrows cats).header
    · rw [if_pos hmem] at hok
      rcases htd : to_datetime ((read_table f nrows cats).col dc) with e | vs
      · rw [htd] at hok; cases hok
      · rw [htd] at hok
        refine ⟨hwf, by simpa [read_table] using hmem, vs, rfl, ?_⟩
        cases hok
        rfl
    · rw [if_neg hmem] at hok; cases hok

theorem load_data_ok_skip (f : CsvFile) (nrows : Option Nat) (dc : Option String)
    (cats : List String) (df : DataFrame)
    (hskip : dc = none ∨ dc = some "")
    (hok : load_data (some f) nrows dc cats = .ok df) :
    f.wellFormed ∧ df = read_table f nrows cats := by
  unfold load_data at hok
  rcases hrc : read_csv (some f) nrows cats with e | data
  · rw [hrc] at hok; cases hok
  · obtain ⟨hwf, rfl⟩ := (read_csv_ok_iff f nrows cats data).mp hrc
    rw [hrc] at hok
    rcases hskip with rfl | rfl
    · cases hok; exact ⟨hwf, rfl⟩
    · simp only [if_pos rfl] at hok
      cases hok
      exact ⟨hwf, rfl⟩

/-- C5: for every path that does not name an existing file, `load_data` fails
with the file-not-found condition; it never returns a table, in particular not
an empty one. -/
theorem load_data_missing_file (nrows : Option Nat) (dc : Option String)
    (cats : List String) :
    load_data none nrows dc cats = .error .fileNotFound ∧
      ∀ df, ¬ load_data none nrows dc cats = .ok df := by
  refine ⟨rfl, ?_⟩
  intro df h
  rw [show load_data none nrows dc cats = .error .fileNotFound from rfl] at h
  cases h

/-- C9: calling `load_data` with the empty string as the date-column name
performs no timestamp conversion: because the guard `if date_col:` tests
truthiness, the empty string behaves exactly like supplying no date column. -/
theorem load_data_empty_datecol (file : Option CsvFile) (nrows : Option Nat)
    (cats : List String) :
    load_data file nrows (some "") cats = load_data file nrows none cats := by
  rcases h : read_csv file nrows cats with e | data <;> simp [load_data, h]

/-- C2: for a well-formed input file with `t` data rows, a successful
`load_data` with no row limit returns exactly `t` rows, and with row limit `n`
exactly `min n t` rows. -/
theorem load_data_row_count (f : CsvFile) (nrows : Option Nat) (dc : Option String)
    (cats : List String) (df : DataFrame) (hwf : f.wellFormed)
    (hok : load_data (some f) nrows dc cats = .ok df) :
    df.rows.length = nrows.elim f.rows.length (fun n => min n f.rows.length) := by
  rw [← takenRows_length f nrows]
  rcases dc with _ | dc
  · obtain ⟨_, rfl⟩ := load_data_ok_skip f nrows none cats df (Or.inl rfl) hok
    exact read_table_rows_length f nrows cats
  · by_cases hdc : dc = ""
    · subst hdc
      obtain ⟨_, rfl⟩ := load_data_ok_skip f nrows (some "") cats df (Or.inr rfl) hok
      exact read_table_rows_length f nrows cats
    · obtain ⟨_, hmem, vs, htd, rfl⟩ := load_data_ok_cases f nrows dc cats df hdc hok
      obtain ⟨_, hvs⟩ := (to_datetime_ok_iff _ _).mp htd
      have hlen : vs.length = (read_table f nrows cats).rows.length := by
        rw [hvs]
        simp [col_length]
      have hset : ((read_table f nrows cats).set_datetime_col dc vs).rows.length
          = (read_table f nrows cats).rows.length := by
        simp [DataFrame.set_datetime_col, hlen]
      rw [hset, read_table_rows_length]

/-- Witness for `load_data_row_count`: loading the three-row file `Wfile2`
with a row limit of 2 yields a two-row table. -/
theorem load_data_row_count_witness :
    Wfile2.wellFormed ∧ load_data (some Wfile2) (some 2) none [] = .ok Wdf2 ∧
      Wdf2.rows.length = min 2 Wfile2.rows.length :=
  ⟨by unfold CsvFile.wellFormed; decide, by decide,
    load_data_row_count Wfile2 (some 2) none [] Wdf2
      (by unfold CsvFile.wellFormed; decide) (by decide)⟩

/-- A value occurs twice or more in a list exactly when it also occurs at a
position other than a given one where it appears. -/
theorem two_le_count_iff (xs : List Value) (i : Nat) (h : i < xs.length) :
    2 ≤ xs.count (xs.getD i .vnull) ↔
      ∃ j, j < xs.length ∧ j ≠ i ∧ xs.getD j .vnull = xs.getD i .vnull := by
  induction xs generalizing i with
  | nil => simp at h
  | cons x xs ih =>
    cases i with
    | zero =>
      rw [List.getD_cons_zero]
      have hcc : (x :: xs).count x = xs.count x + 1 := by simp [List.count_cons]
      constructor
      · intro h2
        have hx : x ∈ xs := List.count_pos_iff.mp (by omega)
        obtain ⟨n, hn, hxn⟩ := List.mem_iff_getElem.mp hx
        refine ⟨n + 1, by simpa using hn, by simp, ?_⟩
        rw [List.getD_cons_succ, getD_of_lt _ _ _ hn, hxn]
      · rintro ⟨j, hj, hj0, hjv⟩
        cases j with
        | zero => exact absurd rfl hj0
        | succ j =>
          rw [List.getD_cons_succ] at hjv
          have hx : x ∈ xs := by
            rw [← hjv]
            exact getD_mem xs j _ (by simpa using hj)
          have := List.count_pos_iff.mpr hx
          omega
    | succ i =>
      have hi : i < xs.length := by simpa using h
      rw [List.getD_cons_succ]
      have hcc : (x :: xs).count (xs.getD i .vnull)
          = xs.count (xs.getD i .vnull)
            + if (x == xs.getD i .vnull) = true then 1 else 0 :=
        List.count_cons _ _ _
      by_cases hxv : x = xs.getD i .vnull
      · have hvmem : xs.getD i .vnull ∈ xs := getD_mem xs i _ hi
        have h1 : 0 < xs.count (xs.getD i .vnull) := List.count_pos_iff.mpr hvmem
        constructor
        · intro _
          exact ⟨0, by simp, by simp, by simp [hxv]⟩
        · intro _
          rw [hcc]
          simp only [hxv, beq_self_eq_true, if_pos]
          omega
      · constructor
        · intro h2
          rw [hcc] at h2
          simp only [beq_iff_eq, hxv, if_neg, if_false, add_zero] at h2
          obtain ⟨j, hj, hji, hjv⟩ := (ih i hi).mp h2
          exact ⟨j + 1, by simpa using hj, by simpa using hji,
            by simpa [List.getD_cons_succ] using hjv⟩
        · rintro ⟨j, hj, hji, hjv⟩
          rw [hcc]
          cases j with
          | zero =>
            rw [List.getD_cons_zero] at hjv
            exact absurd hjv hxv
          | succ j =>
            rw [List.getD_cons_succ] at hjv
            have h2 := (ih i hi).mpr ⟨j, by simpa using hj, by simpa using hji, hjv⟩
            omega

/-- The duplicate mask marks position `i` exactly when the value there has
total count two or more. -/
theorem duplicated_getD (xs : List Value) (i : Nat) (h : i < xs.length) :
    (duplicatedKeepFalse xs).getD i false
      = decide (2 ≤ xs.count (xs.getD i .vnull)) := by
  unfold duplicatedKeepFalse
  rw [getD_range_map, if_pos h, Bool.eq_iff_iff]
  simp only [List.any_eq_true, List.mem_range, Bool.and_eq_true, decide_eq_true_eq]
  rw [two_le_count_iff xs i h]

/-- Filtering positionally by a boolean mask equals filtering by a predicate
on a parallel list, when the mask agrees with the predicate pointwise. -/
theorem filter_zip_mask {R S T : Type} (f : R → S) (q : T → Bool) (dT : T) :
    ∀ (rows : List R) (ts : List T) (m : List Bool),
      m.length = rows.length → ts.length = rows.length →
      (∀ i, i < rows.length → m.getD i false = q (ts.getD i dT)) →
      (((rows.map f).zip m).filter (fun p => p.2)).map (fun p => p.1)
        = ((rows.zip ts).filter (fun p => q p.2)).map (fun p => f p.1) := by
  intro rows
  induction rows with
  | nil =>
    intro ts m _ _ _
    simp
  | cons r rows ih =>
    intro ts m hm ht hq
    cases ts with
    | nil => simp at ht
    | cons t ts =>
      cases m with
      | nil => simp at hm
      | cons b m =>
        have h0 : b = q t := by simpa using hq 0 (by simp)
        have hrec := ih ts m (by simpa using hm) (by simpa using ht)
          (fun i hi => by simpa using hq (i + 1) (by simpa using hi))
        simp only [List.map_cons, List.zip_cons_cons, List.filter_cons]
        rw [h0]
        by_cases hb : q t = true
        · simp [hb, hrec]
        · simp [hb, hrec]

/-- C1: the duplicates view returns exactly the rows whose `title` value
occurs two or more times in the loaded table (projected to the displayed
columns), and no row whose title occurs exactly once. -/
theorem duplicates_view_eq_spec (df : DataFrame) :
    duplicates_view df = dup_title_rows_spec df := by
  unfold duplicates_view dup_title_rows_spec
  refine filter_zip_mask
    (fun r => DUP_VIEW_COLS.map (fun c => r.getD (colIndex df.header c) .vnull))
    (fun t => decide (2 ≤ (df.col "title").count t)) Value.vnull
    df.rows (df.col "title") (duplicatedKeepFalse (df.col "title")) ?_ ?_ ?_
  · simp [duplicatedKeepFalse, col_length]
  · simp [col_length]
  · intro i hi
    exact duplicated_getD (df.col "title") i (by simpa [col_length] using hi)

/-! Lemmas about the author-frequency query. -/

theorem author_groups_eq (df : DataFrame) :
    author_groups df
      = ((df.col "authorPersonId").filter (fun v => !v.isNull)).dedup.map
          (fun k => (k, ((df.col "authorPersonId").filter (fun v => !v.isNull)).count k)) := rfl

theorem author_freq_eq (df : DataFrame) :
    author_freq df
      = ((author_groups df).insertionSort byCountDesc).map
          (fun g => (g.1, g.2,
            (g.2 : ℚ) / ((((author_groups df).map (fun q => q.2)).sum : ℕ) : ℚ) * 100)) := rfl

theorem author_groups_sum (df : DataFrame) :
    ((author_groups df).map (fun q => q.2)).sum
      = ((df.col "authorPersonId").filter (fun v => !v.isNull)).length := by
  rw [author_groups_eq, List.map_map]
  simpa [Function.comp] using
    List.sum_map_count_dedup_eq_length ((df.col "authorPersonId").filter (fun v => !v.isNull))

theorem author_groups_mem (df : DataFrame) (g : Value × Nat) (hg : g ∈ author_groups df) :
    g.1 ∈ (df.col "authorPersonId").filter (fun v => !v.isNull) := by
  rw [author_groups_eq] at hg
  obtain ⟨k, hk, rfl⟩ := List.mem_map.mp hg
  exact List.mem_dedup.mp hk

/-- Percentages of a positive total sum to exactly 100. -/
theorem sum_div_total (l : List (Value × Nat)) (T : ℚ) (hT : T ≠ 0)
    (hsum : (((l.map (fun g => g.2)).sum : ℕ) : ℚ) = T) :
    (l.map (fun g => (g.2 : ℚ) / T * 100)).sum = 100 := by
  have h1 : ∀ p ∈ l, (p.2 : ℚ) / T * 100 = (p.2 : ℚ) * (100 / T) := by
    intro p _
    ring
  have h2 : (l.map (fun p => (p.2 : ℚ))).sum = (((l.map (fun g => g.2)).sum : ℕ) : ℚ) := by
    rw [Nat.cast_list_sum, List.map_map]
    rfl
  rw [List.map_congr_left h1, List.sum_map_mul_right, h2, hsum]
  field_simp

/-- C10: the author-frequency table excludes rows with a missing
`authorPersonId`, and as soon as at least one row has a non-missing author id
the percent column sums to exactly 100. -/
theorem author_freq_percent_sum (df : DataFrame)
    (h : ∃ v ∈ df.col "authorPersonId", v.isNull = false) :
    (∀ g ∈ author_freq df, g.1.isNull = false) ∧
      ((author_freq df).map (fun g => g.2.2)).sum = 100 := by
  obtain ⟨v, hv, hvn⟩ := h
  have hvk : v ∈ (df.col "authorPersonId").filter (fun u => !u.isNull) :=
    List.mem_filter.mpr ⟨hv, by simp [hvn]⟩
  have hklen : 0 < ((df.col "authorPersonId").filter (fun u => !u.isNull)).length :=
    List.length_pos.mpr (List.ne_nil_of_mem hvk)
  have htot : ((((author_groups df).map (fun q => q.2)).sum : ℕ) : ℚ) ≠ 0 := by
    rw [author_groups_sum]
    exact Nat.cast_ne_zero.mpr (by omega)
  constructor
  · intro g hg
    rw [author_freq_eq] at hg
    obtain ⟨p, hp, rfl⟩ := List.mem_map.mp hg
    have hpg : p ∈ author_groups df :=
      (List.perm_insertionSort byCountDesc (author_groups df)).mem_iff.mp hp
    have := (List.mem_filter.mp (author_groups_mem df p hpg)).2
    simpa using this
  · rw [author_freq_eq, List.map_map]
    show (((author_groups df).insertionSort byCountDesc).map
        (fun g => (g.2 : ℚ) / ((((author_groups df).map (fun q => q.2)).sum : ℕ) : ℚ) * 100)).sum
      = 100
    rw [List.Perm.sum_eq (List.Perm.map _ (List.perm_insertionSort byCountDesc
      (author_groups df)))]
    exact sum_div_total (author_groups df) _ htot rfl

/-- Witness for `author_freq_percent_sum`: on the one-row table loaded from
`Wfile10`, the only author id is non-missing and the percent column sums
to 100. -/
theorem author_freq_percent_sum_witness :
    (∀ g ∈ author_freq (read_table Wfile10 none []), g.1.isNull = false) ∧
      ((author_freq (read_table Wfile10 none [])).map (fun g => g.2.2)).sum = 100 :=
  author_freq_percent_sum (read_table Wfile10 none []) ⟨.vint 5, by decide, by decide⟩

/-- C4: for a table whose rows are split 3/2/1 in `authorPersonId` among
exactly three authors, the ranking lists the author with 3 rows first, and
that author's percent value is exactly `3 / 6 * 100 = 50`. -/
theorem author_freq_top (df : DataFrame) (a b c : Value)
    (hd : ((df.col "authorPersonId").filter (fun v => !v.isNull)).dedup = [a, b, c])
    (hca : ((df.col "authorPersonId").filter (fun v => !v.isNull)).count a = 3)
    (hcb : ((df.col "authorPersonId").filter (fun v => !v.isNull)).count b = 2)
    (hcc : ((df.col "authorPersonId").filter (fun v => !v.isNull)).count c = 1) :
    ∃ rest, author_freq df = (a, 3, (50 : ℚ)) :: rest := by
  have hg : author_groups df = [(a, 3), (b, 2), (c, 1)] := by
    rw [author_groups_eq, hd]
    simp [hca, hcb, hcc]
  refine ⟨[(b, 2, (100 : ℚ) / 3), (c, 1, (50 : ℚ) / 3)], ?_⟩
  rw [author_freq_eq, hg]
  norm_num [List.insertionSort, List.orderedInsert, byCountDesc]

/-- Witness for `author_freq_top`: the table loaded from `Wfile4` has author
ids split 3/2/1 among ids 1, 2, 3, and its author-frequency ranking starts
with id 1 at 3 articles and 50 percent. -/
theorem author_freq_top_witness :
    (((read_table Wfile4 none []).col "authorPersonId").filter
        (fun v => !v.isNull)).dedup = [.vint 1, .vint 2, .vint 3] ∧
      ∃ rest, author_freq (read_table Wfile4 none [])
        = (.vint 1, 3, (50 : ℚ)) :: rest :=
  ⟨by decide, author_freq_top (read_table Wfile4 none []) (.vint 1) (.vint 2) (.vint 3)
    (by decide) (by decide) (by decide) (by decide)⟩

/-! The timestamp conversion and the untouched columns. -/

/-- C3: when the designated date column's raw values are all integer literals
and the load succeeds, every value of that column is a date-time, and taking
it back to epoch seconds reproduces exactly the integer parsed from the
file. -/
theorem load_data_epoch_roundtrip (f : CsvFile) (nrows : Option Nat) (dc : String)
    (cats : List String) (df : DataFrame) (hdc : dc ≠ "")
    (hok : load_data (some f) nrows (some dc) cats = .ok df)
    (hraw : ∀ s ∈ rawCol f nrows dc, isIntLit s = true) :
    ∀ i, i < (df.col dc).length → ∃ n : Int,
      parseInt? ((rawCol f nrows dc).getD i "") = some n ∧
      (df.col dc).getD i .vnull = .vdatetime n ∧
      Value.toEpoch ((df.col dc).getD i .vnull) = some n := by
  obtain ⟨hwf, hmem, vs, htd, rfl⟩ := load_data_ok_cases f nrows dc cats df hdc hok
  obtain ⟨hall, hvs⟩ := (to_datetime_ok_iff _ _).mp htd
  have hrect : ∀ r ∈ (read_table f nrows cats).rows,
      colIndex (read_table f nrows cats).header dc < r.length := by
    intro r hr
    have hlen := read_table_rect f nrows cats r hr
    show colIndex f.header dc < r.length
    rw [hlen]
    exact colIndex_lt hmem
  have hlen : vs.length = (read_table f nrows cats).rows.length := by
    rw [hvs, List.length_map, col_length]
  have hcol : ((read_table f nrows cats).set_datetime_col dc vs).col dc = vs :=
    col_set_datetime_self (read_table f nrows cats) dc vs hrect hlen
  have hcolT : (read_table f nrows cats).col dc
      = (rawCol f nrows dc).map
          (parsePos f.header cats (f.takenRows nrows) (colIndex f.header dc)) :=
    col_read_table f nrows cats dc hmem
  rw [hcol]
  intro i hi
  have hireg : i < (rawCol f nrows dc).length := by
    rw [hvs, hcolT] at hi
    simpa using hi
  have hicol : i < ((read_table f nrows cats).col dc).length := by
    rw [hcolT]
    simpa using hireg
  have hint : isIntLit ((rawCol f nrows dc).getD i "") = true :=
    hraw _ (getD_mem _ i _ hireg)
  have hint2 : (parseInt? ((rawCol f nrows dc).getD i "")).isSome = true := by
    unfold isIntLit at hint
    exact hint
  obtain ⟨n, hn⟩ := Option.isSome_iff_exists.mp hint2
  have hTi : ((read_table f nrows cats).col dc).getD i .vnull
      = parsePos f.header cats (f.takenRows nrows) (colIndex f.header dc)
          ((rawCol f nrows dc).getD i "") := by
    rw [hcolT]
    exact getD_map _ _ i "" _ hireg
  have hPok : Value.epochOk (((read_table f nrows cats).col dc).getD i .vnull) = true :=
    List.all_eq_true.mp hall _ (getD_mem _ i _ hicol)
  have hsne : (rawCol f nrows dc).getD i "" ≠ "" := by
    intro h0
    rw [h0] at hn
    have hz : parseInt? "" = none := by decide
    rw [hz] at hn
    cases hn
  have hg1 : ((f.takenRows nrows).map
        (fun r => r.getD (colIndex f.header dc) "")).all
      (fun t => isIntLit t) = true :=
    List.all_eq_true.mpr (fun x hx => hraw x hx)
  have hP : parsePos f.header cats (f.takenRows nrows) (colIndex f.header dc)
      ((rawCol f nrows dc).getD i "") = .vint n := by
    rw [hTi] at hPok
    unfold parsePos at hPok ⊢
    by_cases hcat : f.header.getD (colIndex f.header dc) "" ∈ cats
    · rw [if_pos hcat] at hPok
      unfold parseCatCell at hPok
      rw [if_neg hsne] at hPok
      simp [Value.epochOk] at hPok
    · rw [if_neg hcat, if_pos hg1, hn]
  refine ⟨n, hn, ?_, ?_⟩
  · rw [hvs, getD_map Value.toDatetime _ i .vnull .vnull hicol, hTi, hP]
    rfl
  · rw [hvs, getD_map Value.toDatetime _ i .vnull .vnull hicol, hTi, hP]
    rfl

/-- Witness for `load_data_epoch_roundtrip`: the first loaded timestamp of
`Wfile3` is the date-time 100 seconds after the epoch and converts back to
the raw integer 100. -/
theorem load_data_epoch_roundtrip_witness :
    (0 : Nat) < (Wdf3.col "timestamp").length ∧
      ∃ n : Int, parseInt? ((rawCol Wfile3 none "timestamp").getD 0 "") = some n ∧
        (Wdf3.col "timestamp").getD 0 .vnull = .vdatetime n ∧
        Value.toEpoch ((Wdf3.col "timestamp").getD 0 .vnull) = some n :=
  ⟨by decide,
    load_data_epoch_roundtrip Wfile3 none "timestamp" [] Wdf3 (by decide) (by decide)
      (by decide) 0 (by decide)⟩

/-- Dropping while a predicate holds of every element yields the empty
list. -/
theorem dropWhile_eq_nil_of_all {A : Type} (p : A → Bool) :
    ∀ ds : List A, (∀ c ∈ ds, p c = true) → ds.dropWhile p = []
  | [], _ => rfl
  | c :: cs, h => by
    rw [List.dropWhile_cons, if_pos (h c (List.mem_cons_self c cs))]
    exact dropWhile_eq_nil_of_all p cs (fun x hx => h x (List.mem_cons_of_mem c hx))

/-- Taking while a predicate holds of every element returns the whole list. -/
theorem takeWhile_eq_self_of_all {A : Type} (p : A → Bool) :
    ∀ ds : List A, (∀ c ∈ ds, p c = true) → ds.takeWhile p = ds
  | [], _ => rfl
  | c :: cs, h => by
    rw [List.takeWhile_cons, if_pos (h c (List.mem_cons_self c cs))]
    rw [takeWhile_eq_self_of_all p cs (fun x hx => h x (List.mem_cons_of_mem c hx))]

/-- A nonempty all-digit character run parses as an unsigned float literal. -/
theorem parseNumCore_digits (ds : List Char) (hne : ds ≠ [])
    (hd : ∀ c ∈ ds, c.isDigit = true) : (parseNumCore ds).isSome = true := by
  have hdrop : ds.dropWhile Char.isDigit = [] := dropWhile_eq_nil_of_all _ ds hd
  have htake : ds.takeWhile Char.isDigit = ds := takeWhile_eq_self_of_all _ ds hd
  simp [parseNumCore, hdrop, htake, hne]

/-- Every character run the integer parser accepts, the float parser also
accepts. -/
theorem parseIntChars_to_num (cs : List Char) (n : Int)
    (h : parseIntChars cs = some n) : (parseNumChars cs).isSome = true := by
  cases cs with
  | nil => simp [parseIntChars] at h
  | cons c rest =>
    simp only [parseIntChars] at h
    simp only [parseNumChars]
    by_cases hm : c = '-'
    · rw [if_pos hm] at h ⊢
      by_cases hdig : rest ≠ [] ∧ rest.all Char.isDigit
      · obtain ⟨q, hq⟩ := Option.isSome_iff_exists.mp
          (parseNumCore_digits rest hdig.1 (fun x hx => List.all_eq_true.mp hdig.2 x hx))
        rw [hq]
        rfl
      · rw [if_neg hdig] at h
        cases h
    · rw [if_neg hm] at h ⊢
      by_cases hp : c = '+'
      · rw [if_pos hp] at h ⊢
        by_cases hdig : rest ≠ [] ∧ rest.all Char.isDigit
        · exact parseNumCore_digits rest hdig.1
            (fun x hx => List.all_eq_true.mp hdig.2 x hx)
        · rw [if_neg hdig] at h
          cases h
      · rw [if_neg hp] at h ⊢
        by_cases hdig : (c :: rest).all Char.isDigit = true
        · exact parseNumCore_digits (c :: rest) (by simp)
            (fun x hx => List.all_eq_true.mp hdig x hx)
        · rw [if_neg hdig] at h
          cases h

/-- Every raw cell the integer parser accepts, the numeric parser accepts. -/
theorem parseInt_to_num (s : String) (n : Int) (h : parseInt? s = some n) :
    (parseNum? s).isSome = true := by
  unfold parseInt? at h
  unfold parseNum?
  exact parseIntChars_to_num _ n h

/-- C7: when the supplied date column exists but contains a value that is
neither a missing-value token nor a numeric literal, the column is read as
text, `pd.to_datetime(..., unit="s")` raises (modelled by the conversion
error), and `load_data` fails without returning any table, partial or
otherwise. -/
theorem load_data_bad_datecol (f : CsvFile) (nrows : Option Nat) (dc : String)
    (cats : List String) (hwf : f.wellFormed) (hdc : dc ≠ "") (hmem : dc ∈ f.header)
    (hbad : ∃ s ∈ rawCol f nrows dc, isNAToken s = false ∧ parseNum? s = none) :
    load_data (some f) nrows (some dc) cats = .error .dateColNotNumeric ∧
      ∀ df, ¬ load_data (some f) nrows (some dc) cats = .ok df := by
  have hrc : read_csv (some f) nrows cats = .ok (read_table f nrows cats) :=
    (read_csv_ok_iff f nrows cats _).mpr ⟨hwf, rfl⟩
  obtain ⟨s, hsmem, hsna, hsnum⟩ := hbad
  have hsne : s ≠ "" := by
    intro h0
    rw [h0] at hsna
    exact absurd hsna (by decide)
  have hsint : isIntLit s = false := by
    unfold isIntLit
    cases hpi : parseInt? s with
    | none => rfl
    | some n =>
      have hns := parseInt_to_num s n hpi
      rw [hsnum] at hns
      cases hns
  have hsmem2 : s ∈ (f.takenRows nrows).map
      (fun r => r.getD (colIndex f.header dc) "") := hsmem
  have hg1 : ((f.takenRows nrows).map
        (fun r => r.getD (colIndex f.header dc) "")).all
      (fun t => isIntLit t) = false := by
    rw [List.all_eq_false]
    refine ⟨s, hsmem2, ?_⟩
    intro hh
    have hh2 : isIntLit s = true := hh
    rw [hsint] at hh2
    exact Bool.false_ne_true hh2
  have hg2 : ((f.takenRows nrows).map
        (fun r => r.getD (colIndex f.header dc) "")).all
      (fun t => isNAToken t || (parseNum? t).isSome) = false := by
    rw [List.all_eq_false]
    refine ⟨s, hsmem2, ?_⟩
    intro hh
    have hh2 : (isNAToken s || (parseNum? s).isSome) = true := hh
    rw [hsna, hsnum] at hh2
    exact absurd hh2 (by decide)
  have hP : parsePos f.header cats (f.takenRows nrows) (colIndex f.header dc) s
      = .vstr s := by
    unfold parsePos
    by_cases hcat : f.header.getD (colIndex f.header dc) "" ∈ cats
    · rw [if_pos hcat]
      unfold parseCatCell
      rw [if_neg hsne]
    · rw [if_neg hcat,
        if_neg (fun hh => Bool.false_ne_true (hg1 ▸ hh)),
        if_neg (fun hh => Bool.false_ne_true (hg2 ▸ hh)),
        if_neg (fun hh => Bool.false_ne_true (hsna ▸ hh))]
  have hcolmem : Value.vstr s ∈ (read_table f nrows cats).col dc := by
    rw [col_read_table f nrows cats dc hmem, ← hP]
    exact List.mem_map_of_mem _ hsmem
  have hallF : ((read_table f nrows cats).col dc).all Value.epochOk = false := by
    rw [List.all_eq_false]
    exact ⟨.vstr s, hcolmem, by simp [Value.epochOk]⟩
  have htd : to_datetime ((read_table f nrows cats).col dc)
      = .error .dateColNotNumeric := by
    unfold to_datetime
    rw [if_neg (by simp [hallF])]
  have hmem2 : dc ∈ (read_table f nrows cats).header := hmem
  have hload : load_data (some f) nrows (some dc) cats = .error .dateColNotNumeric := by
    simp only [load_data, hrc]
    rw [if_neg hdc, if_pos hmem2, htd]
  refine ⟨hload, ?_⟩
  intro df h
  rw [hload] at h
  cases h

/-- Witness for `load_data_bad_datecol`: loading `Wfile7` with its text-valued
column as the date column fails with the date-conversion error. -/
theorem load_data_bad_datecol_witness :
    Wfile7.wellFormed ∧
      load_data (some Wfile7) none (some "t") [] = .error .dateColNotNumeric :=
  ⟨by unfold CsvFile.wellFormed; decide,
    (load_data_bad_datecol Wfile7 none "t" [] (by unfold CsvFile.wellFormed; decide)
      (by decide) (by decide) ⟨"abc", by decide, by decide, by decide⟩).1⟩

/-- The positional parse of a non-categorical column agrees with `inferCol`'s
cellwise behaviour, guarded by the same per-column numeric test. -/
theorem parsePos_not_cat (f : CsvFile) (nrows : Option Nat) (cats : List String)
    (c : String) (hc : c ∈ f.header) (hcat : c ∉ cats) (s : String) :
    parsePos f.header cats (f.takenRows nrows) (colIndex f.header c) s
      = if (rawCol f nrows c).all (fun t => isIntLit t) then
          (match parseInt? s with
           | some n => Value.vint n
           | none => Value.vnull)
        else if (rawCol f nrows c).all (fun t => isNAToken t || (parseNum? t).isSome) then
          (if isNAToken s then Value.vnull
           else
             match parseNum? s with
             | some q => Value.vfloat q
             | none => Value.vnull)
        else if isNAToken s then Value.vnull
        else Value.vstr s := by
  unfold parsePos
  rw [getD_colIndex hc, if_neg hcat]
  rfl

/-- A non-categorical column of the read table is exactly the column-inferred
parse of its raw cells. -/
theorem col_read_table_not_cat (f : CsvFile) (nrows : Option Nat) (cats : List String)
    (c : String) (hc : c ∈ f.header) (hcat : c ∉ cats) :
    (read_table f nrows cats).col c = inferCol (rawCol f nrows c) := by
  rw [col_read_table f nrows cats c hc,
    List.map_congr_left (fun s _ => parsePos_not_cat f nrows cats c hc hcat s)]
  unfold inferCol
  by_cases hg1 : (rawCol f nrows c).all (fun t => isIntLit t) = true
  · rw [if_pos hg1]
    exact List.map_congr_left (fun s _ => by rw [if_pos hg1])
  · rw [if_neg hg1]
    by_cases hg2 : (rawCol f nrows c).all
        (fun t => isNAToken t || (parseNum? t).isSome) = true
    · rw [if_pos hg2]
      exact List.map_congr_left (fun s _ => by rw [if_neg hg1, if_pos hg2])
    · rw [if_neg hg2]
      exact List.map_congr_left (fun s _ => by rw [if_neg hg1, if_neg hg2])

/-- C8: beyond the timestamp conversion and the categorical coercion,
`load_data` applies no transformation: every column not named as the date
column and not named in the dtype mapping holds exactly the values parsed
from the file, and no row is validated away, deduplicated or filtered. -/
theorem load_data_frame_effect (f : CsvFile) (nrows : Option Nat) (dc : Option String)
    (cats : List String) (df : DataFrame) (c : String)
    (hok : load_data (some f) nrows dc cats = .ok df)
    (hc : c ∈ f.header) (hcat : c ∉ cats)
    (hdc : ∀ s, dc = some s → c ≠ s) :
    df.col c = inferCol (rawCol f nrows c) ∧
      df.rows.length = (f.takenRows nrows).length := by
  rcases dc with _ | s
  · obtain ⟨_, rfl⟩ := load_data_ok_skip f nrows none cats df (Or.inl rfl) hok
    exact ⟨col_read_table_not_cat f nrows cats c hc hcat, read_table_rows_length f nrows cats⟩
  · by_cases hs : s = ""
    · subst hs
      obtain ⟨_, rfl⟩ := load_data_ok_skip f nrows (some "") cats df (Or.inr rfl) hok
      exact ⟨col_read_table_not_cat f nrows cats c hc hcat,
        read_table_rows_length f nrows cats⟩
    · obtain ⟨hwf, hmem, vs, htd, rfl⟩ := load_data_ok_cases f nrows s cats df hs hok
      obtain ⟨hall, hvs⟩ := (to_datetime_ok_iff _ _).mp htd
      have hlen : vs.length = (read_table f nrows cats).rows.length := by
        rw [hvs, List.length_map, col_length]
      have hcs : s ≠ c := (hdc s rfl).symm
      have hidx : colIndex (read_table f nrows cats).header s
          ≠ colIndex (read_table f nrows cats).header c :=
        colIndex_inj hmem hc hcs
      constructor
      · rw [col_set_datetime_ne _ s c vs hidx hlen]
        exact col_read_table_not_cat f nrows cats c hc hcat
      · have hset : ((read_table f nrows cats).set_datetime_col s vs).rows.length
            = (read_table f nrows cats).rows.length := by
          simp [DataFrame.set_datetime_col, hlen]
        rw [hset, read_table_rows_length]

/-- Witness for `load_data_frame_effect`: loading `Wfile8` converts `t` and
coerces `lang`, while its `title` column holds exactly the parsed raw
values. -/
theorem load_data_frame_effect_witness :
    load_data (some Wfile8) none (some "t") ["lang"] = .ok Wdf8 ∧
      Wdf8.col "title" = inferCol (rawCol Wfile8 none "title") ∧
      Wdf8.rows.length = (Wfile8.takenRows none).length := by
  refine ⟨by decide, ?_, ?_⟩
  · exact (load_data_frame_effect Wfile8 none (some "t") ["lang"] Wdf8 "title" (by decide)
      (by decide) (by decide) (fun s hs => by cases hs; decide)).1
  · exact (load_data_frame_effect Wfile8 none (some "t") ["lang"] Wdf8 "title" (by decide)
      (by decide) (by decide) (fun s hs => by cases hs; decide)).2

/-! The categorical coercion. -/

/-- The label set of a category column read from the taken rows is no larger
than the number of distinct raw values in that column of the whole file. -/
theorem catLabels_le (f : CsvFile) (nrows : Option Nat) (j : Nat) :
    (catLabels (f.takenRows nrows) j).length
      ≤ ((f.rows.map (fun r => r.getD j "")).dedup).length := by
  have hnodup : (catLabels (f.takenRows nrows) j).Nodup := by
    unfold catLabels
    exact List.nodup_dedup _
  have hsub : ∀ x ∈ catLabels (f.takenRows nrows) j,
      x ∈ f.rows.map (fun r => r.getD j "") := by
    intro x hx
    unfold catLabels at hx
    have hx2 := (List.mem_filter.mp (List.mem_dedup.mp hx)).1
    obtain ⟨r, hr, rfl⟩ := List.mem_map.mp hx2
    refine List.mem_map_of_mem _ ?_
    cases nrows with
    | none => exact hr
    | some n => exact List.take_subset n f.rows hr
  calc (catLabels (f.takenRows nrows) j).length
      = (catLabels (f.takenRows nrows) j).toFinset.card :=
        (List.toFinset_card_of_nodup hnodup).symm
    _ ≤ (f.rows.map (fun r => r.getD j "")).toFinset.card :=
        Finset.card_le_card
          (fun x hx => List.mem_toFinset.mpr (hsub x (List.mem_toFinset.mp hx)))
    _ = ((f.rows.map (fun r => r.getD j "")).dedup).length := List.card_toFinset _

/-- The dtype the read table assigns to a column named in the categorical
mapping is the categorical encoding with that column's label set. -/
theorem dtypes_read_table_cat (f : CsvFile) (nrows : Option Nat) (cats : List String)
    (c : String) (hh : c ∈ f.header) (hc : c ∈ cats) :
    (read_table f nrows cats).dtypes.getD (colIndex f.header c) .dinferred
      = .dcat (catLabels (f.takenRows nrows) (colIndex f.header c)) := by
  show ((List.range f.header.length).map fun j =>
      if f.header.getD j "" ∈ cats then Dtype.dcat (catLabels (f.takenRows nrows) j)
      else Dtype.dinferred).getD (colIndex f.header c) Dtype.dinferred = _
  rw [getD_range_map, if_pos (colIndex_lt hh), getD_colIndex hh, if_pos hc]

/-- Counterexample to C6 as stated: when the categorical column is also
supplied as the date column (here over a file with a header and no data
rows), the load succeeds but the loaded column's dtype is the date-time
dtype, not a categorical encoding. -/
theorem load_data_categorical_counterexample :
    load_data (some ⟨["lang"], []⟩) none (some "lang") ["lang"]
      = .ok ⟨["lang"], [.ddatetime], []⟩ ∧
      ((⟨["lang"], [.ddatetime], []⟩ : DataFrame).dtypes.getD
        (colIndex ["lang"] "lang") .dinferred).isCat = false := by
  decide

/-- C6 (amended): for every column named in the categorical type mapping and
not also supplied as the date column, the loaded table's column carries a
categorical dtype whose finite label set is no larger than the number of
distinct raw values present in that column of the input file. -/
theorem load_data_categorical (f : CsvFile) (nrows : Option Nat) (dc : Option String)
    (cats : List String) (df : DataFrame) (c : String)
    (hok : load_data (some f) nrows dc cats = .ok df)
    (hc : c ∈ cats) (hh : c ∈ f.header) (hdc : dc ≠ some c) :
    ∃ labels, df.dtypes.getD (colIndex f.header c) .dinferred = .dcat labels ∧
      labels.length
        ≤ ((f.rows.map (fun r => r.getD (colIndex f.header c) "")).dedup).length := by
  refine ⟨catLabels (f.takenRows nrows) (colIndex f.header c), ?_, catLabels_le f nrows _⟩
  rcases dc with _ | s
  · obtain ⟨_, rfl⟩ := load_data_ok_skip f nrows none cats df (Or.inl rfl) hok
    exact dtypes_read_table_cat f nrows cats c hh hc
  · by_cases hs : s = ""
    · subst hs
      obtain ⟨_, rfl⟩ := load_data_ok_skip f nrows (some "") cats df (Or.inr rfl) hok
      exact dtypes_read_table_cat f nrows cats c hh hc
    · obtain ⟨hwf, hmem, vs, htd, rfl⟩ := load_data_ok_cases f nrows s cats df hs hok
      have hcs : s ≠ c := fun h => hdc (by rw [h])
      have hidx : colIndex f.header s ≠ colIndex f.header c := colIndex_inj hmem hh hcs
      show ((read_table f nrows cats).dtypes.set (colIndex f.header s)
          Dtype.ddatetime).getD (colIndex f.header c) Dtype.dinferred = _
      rw [getD_set_ne _ _ _ hidx]
      exact dtypes_read_table_cat f nrows cats c hh hc

/-- Witness for `load_data_categorical`: loading `Wfile6` leaves `lang` a
categorical column with one label drawn from one distinct raw value. -/
theorem load_data_categorical_witness :
    load_data (some Wfile6) none (some "t") ["lang"] = .ok Wdf6 ∧
      ∃ labels, Wdf6.dtypes.getD (colIndex Wfile6.header "lang") .dinferred
          = .dcat labels ∧
        labels.length
          ≤ ((Wfile6.rows.map
              (fun r => r.getD (colIndex Wfile6.header "lang") "")).dedup).length :=
  ⟨by decide,
    load_data_categorical Wfile6 none (some "t") ["lang"] Wdf6 "lang" (by decide)
      (by decide) (by decide) (by decide)⟩

end Deskdrop
